import Mathlib

/-!
Verification of the pipe2py pipe-graph compiler and runtime
(pipe2py/compile.py, pipe2py/lib/utils.py, pipe2py/modules/pipesplit.py).

The development shallowly embeds the graph model, the wiring resolver,
pipeline assembly and the split module.  Python dictionaries become
association lists (`List (String × _)`), Python generators become lists,
and a lookup that would raise `KeyError` in Python is modelled as `none`.
The repository's topological sorter (pipe2py/lib/topsort.py) is not among
the provided sources; it is modelled from the specification (see
`topological_sort` below).
-/

/-- Python `s.startswith(pre)`, used for the `_OUTPUT` terminal convention. -/
def strStartsWith (s pre : String) : Bool :=
  pre.data.isPrefixOf s.data

/-- One `str.replace(find, tgt)` pass with a single-character pattern, as done
inside `pythonise` (pipe2py/lib/utils.py): with a one-character pattern the
replacement is a character-wise map. -/
def replaceChar (find tgt : Char) (s : List Char) : List Char :=
  s.map fun c => if c = find then tgt else c

/-- pipe2py.lib.utils.pythonise on the character list of an id: sequentially
replace `-`, `:` and `/` by `_` (the reduce over the replacement table), then
prefix `_` when the first character is a digit.  On the empty string the
source would raise IndexError at `id[0]`; we return the empty string there
(no claim involves an empty id). -/
def pythoniseList (id : List Char) : List Char :=
  let r := replaceChar '/' '_' (replaceChar ':' '_' (replaceChar '-' '_' id))
  match r with
  | [] => []
  | c :: _ => if c.isDigit then '_' :: r else r

/-- pipe2py.lib.utils.pythonise. -/
def pythonise (id : String) : String :=
  ⟨pythoniseList id.data⟩

/-- Python dict assignment `d[k] = v` on an association list: overwrite the
entry when the key is present, append it otherwise. -/
def dictSet (d : List (String × α)) (k : String) (v : α) : List (String × α) :=
  if d.any (fun p => p.1 == k) then
    d.map fun p => if p.1 == k then (k, v) else p
  else d ++ [(k, v)]

/-- Python `dict(pairs)`: later pairs overwrite earlier ones. -/
def pyDict (ps : List (String × α)) : List (String × α) :=
  ps.foldl (fun d p => dictSet d p.1 p.2) []

/-- Python `d1.update(d2)`. -/
def pyUpdate (d1 d2 : List (String × α)) : List (String × α) :=
  d2.foldl (fun d p => dictSet d p.1 p.2) d1

/-- `defaultdict(list)` update `graph[k].append(v)`. -/
def dictAppend (d : List (String × List String)) (k v : String) :
    List (String × List String) :=
  if d.any (fun p => p.1 == k) then
    d.map fun p => if p.1 == k then (p.1, p.2 ++ [v]) else p
  else d ++ [(k, [v])]

/-- One endpoint of a wire: `{"moduleid": ..., "id": terminal}`. -/
structure WireEnd where
  moduleid : String
  id : String
deriving DecidableEq

/-- A wire record `{"id": ..., "src": ..., "tgt": ...}`. -/
structure Wire where
  id : String
  src : WireEnd
  tgt : WireEnd
deriving DecidableEq

/-- One typed configuration field descriptor `{"type": ..., "value": ...}`. -/
structure ConfField where
  ftype : String
  value : String
deriving DecidableEq

/-- The module record nested under `conf["embed"]["value"]` of a loop module.
The source never reads a second nesting level (no sub-loops), so the embedded
record's own configuration is a flat field map here. -/
structure EmbeddedDef where
  id : String
  etype : String
  conf : List (String × ConfField)
deriving DecidableEq

/-- A module record.  `mtype` is the `"type"` key; `embed` models the
`conf["embed"]["value"]` entry when present, `conf` the remaining
configuration fields. -/
structure PModule where
  id : String
  mtype : String
  embed : Option EmbeddedDef
  conf : List (String × ConfField)
deriving DecidableEq

/-- The raw pipe definition (parsed JSON): `pipe_def`. -/
structure PipeDef where
  modules : List PModule
  wires : List Wire
deriving DecidableEq

/-- The internal pipe representation returned by `parse_pipe_def`. -/
structure Pipe where
  name : String
  modules : List (String × PModule)
  embed : List (String × PModule)
  graph : List (String × List String)
  wires : List (String × Wire)
deriving DecidableEq

/-- The execution context flags consulted by the compiler core. -/
structure Context where
  describe_input : Bool
  describe_dependencies : Bool
deriving DecidableEq

/-- A value recorded in the `steps` mapping by `_get_steps`:
the sentinel forever generator, a stage obtained by invoking a module's
constructor (`pipe_generator(*pyargs, **pykwargs)`; the stage value itself is
opaque, so we record which constructor was invoked and for which module), or
— for an embedded module — the constructor function itself, not invoked and
with no arguments bound, renamed to `pipe_<module_id>`. -/
inductive Step where
  | forever
  | stage (moduleName pipeName moduleId : String)
  | generator (moduleName pipeName renamed : String)
deriving DecidableEq

/-- A keyword-argument value produced by `_gen_pykwargs` (steps-present path):
the module configuration, a steps entry (`none` models a Python `KeyError`
lookup of a missing steps key), or the split fan-out count. -/
inductive Kwarg where
  | conf (c : List (String × ConfField))
  | input (s : Option Step)
  | count (n : Nat)
deriving DecidableEq

/-- Result of `_get_input_module` (steps-present path): the placeholder
string `'_INPUT'` for embedded modules, or a steps lookup (`none` models a
`KeyError`). -/
inductive InputRes where
  | placeholder
  | found (s : Option Step)
deriving DecidableEq

/-- The source's `filter_func` inside `_gen_pykwargs`: its body evaluates
`module_id == utils.pythonise(x[1]['src']['moduleid'])` but has no return
statement, so the predicate always falls through to `None`, which is falsy. -/
def filter_func (module_id : String) (x : String × Wire) : Bool :=
  let _ := module_id == pythonise x.2.src.moduleid
  false

/-- The wire condition tested by `_get_input_module`: the wire targets this
module's `_INPUT` terminal and its source terminal starts with `_OUTPUT`. -/
def isDefaultInWire (module_id : String) (w : Wire) : Bool :=
  pythonise w.tgt.moduleid == module_id
    && w.tgt.id == "_INPUT"
    && strStartsWith w.src.id "_OUTPUT"

/-- The wire condition tested by `_gen_pykwargs` (`is_default_out_only`): the
wire targets this module on a terminal other than `_INPUT` and its source
terminal starts with `_OUTPUT`. -/
def isAuxInWire (module_id : String) (w : Wire) : Bool :=
  pythonise w.tgt.moduleid == module_id
    && w.tgt.id != "_INPUT"
    && strStartsWith w.src.id "_OUTPUT"

/-- The wire scan of `_get_input_module`: first wire satisfying
`is_default_in_and_out` (the loop breaks at the first hit). -/
def findInputWire (module_id : String) (wires : List (String × Wire)) :
    Option Wire :=
  (wires.find? fun kw => isDefaultInWire module_id kw.2).map (fun kw => kw.2)

/-- pipe2py.compile._get_input_module (steps-present path). -/
def get_input_module (pipe : Pipe) (module_id : String)
    (steps : List (String × Step)) : InputRes :=
  if (pipe.embed.lookup module_id).isSome then
    InputRes.placeholder
  else
    match findInputWire module_id pipe.wires with
    | some w => InputRes.found (steps.lookup (pythonise w.src.moduleid))
    | none => InputRes.found (steps.lookup "forever")

/-- `context.describe_input or context.describe_dependencies`. -/
def describeFlag (ctx : Context) : Bool :=
  ctx.describe_input || ctx.describe_dependencies

/-- pipe2py.compile._get_pyargs (steps-present path): `None` (modelled as
`none`) under a describe flag, otherwise the context and the resolved
default input. -/
def get_pyargs (ctx : Context) (pipe : Pipe) (module_id : String)
    (steps : List (String × Step)) : Option (Context × InputRes) :=
  if describeFlag ctx then none
  else some (ctx, get_input_module pipe module_id steps)

/-- pipe2py.compile._gen_pykwargs (steps-present path), as the list of yielded
pairs; `none` when `pipe['modules'][module_id]` would raise `KeyError`.
A loop module lacking the `conf.embed` entry would also raise `KeyError` in
the source; that crash is modelled as an `embed` kwarg of `none`. -/
def gen_pykwargs (ctx : Context) (pipe : Pipe) (module_id : String)
    (steps : List (String × Step)) : Option (List (String × Kwarg)) :=
  (pipe.modules.lookup module_id).map fun m =>
    ("conf", Kwarg.conf m.conf) ::
      (if describeFlag ctx then []
       else
        (pipe.wires.filter (fun kw => isAuxInWire module_id kw.2)).map
            (fun kw =>
              (pythonise kw.2.tgt.id,
                Kwarg.input (steps.lookup (pythonise kw.2.src.moduleid))))
          ++ (if m.mtype == "loop" then
                [("embed",
                  Kwarg.input (m.embed.bind
                    (fun e => steps.lookup (pythonise e.id))))]
              else [])
          ++ (if m.mtype == "split" then
                [("splits",
                  Kwarg.count (pipe.wires.filter (filter_func module_id)).length)]
              else []))

/-- pipe2py.compile._gen_steps: for an embedded module the constructor
function itself is recorded (renamed to `pipe_<module_id>`, not invoked, no
arguments bound); otherwise the constructor is invoked on the resolved
arguments, producing a stage. -/
def gen_steps (ctx : Context) (pipe : Pipe)
    (module_id module_name pipe_name : String)
    (steps : List (String × Step)) : List (String × Step) :=
  if (pipe.embed.lookup module_id).isSome then
    [(module_id, Step.generator module_name pipe_name ("pipe_" ++ module_id))]
  else
    let _ := get_pyargs ctx pipe module_id steps
    let _ := gen_pykwargs ctx pipe module_id steps
    [(module_id, Step.stage module_name pipe_name module_id)]

/-- pipe2py.lib.utils.gen_names for a single module id. -/
def gen_name (pipe : Pipe) (module_id : String) (ntype : String) :
    Option String :=
  (pipe.modules.lookup module_id).map fun m =>
    if strStartsWith m.mtype "pipe:" then pythonise m.mtype
    else if ntype == "module" then "pipe" ++ m.mtype
    else "pipe_" ++ m.mtype

/-- pipe2py.compile._get_steps: fold the per-module step generation over the
topological order, starting from the seeded sentinel `forever` stage. -/
def get_steps (ctx : Context) (pipe : Pipe) (module_ids : List String) :
    List (String × Step) :=
  module_ids.foldl
    (fun steps mid =>
      pyUpdate steps
        (gen_steps ctx pipe mid ((gen_name pipe mid "module").getD "")
          ((gen_name pipe mid "pipe").getD "") steps))
    [("forever", Step.forever)]

/-- pipe2py.lib.utils.gen_modules: key each module record by its pythonised
id. -/
def gen_modules (pd : PipeDef) : List (String × PModule) :=
  pd.modules.map fun m => (pythonise m.id, m)

/-- The embedded record registered as a first-class module (its own `embed`
slot is empty: the source reads no second nesting level). -/
def moduleOfEmbed (e : EmbeddedDef) : PModule :=
  { id := e.id, mtype := e.etype, embed := none, conf := e.conf }

/-- pipe2py.lib.utils.gen_embedded_modules: the `conf.embed.value` record of
every loop module, keyed by its pythonised id.  (A loop module without that
configuration entry would raise `KeyError` in the source; not modelled, no
claim involves one.) -/
def gen_embedded_modules (pd : PipeDef) : List (String × PModule) :=
  pd.modules.filterMap fun m =>
    if m.mtype == "loop" then
      m.embed.map (fun e => (pythonise e.id, moduleOfEmbed e))
    else none

/-- pipe2py.lib.utils.gen_wires. -/
def gen_wires (pd : PipeDef) : List (String × Wire) :=
  pd.wires.map fun w => (pythonise w.id, w)

/-- pipe2py.lib.utils.gen_graph1: an empty edge list per module, and for each
loop module an edge making the loop depend on its embedded module. -/
def gen_graph1 (pd : PipeDef) : List (String × List String) :=
  pd.modules.flatMap fun m =>
    (pythonise m.id, ([] : List String)) ::
      (if m.mtype == "loop" then
        match m.embed with
        | some e => [(pythonise e.id, [pythonise m.id])]
        | none => []
      else [])

/-- pipe2py.lib.utils.gen_graph2: one src -> tgt pair per wire. -/
def gen_graph2 (pd : PipeDef) : List (String × String) :=
  pd.wires.map fun w => (pythonise w.src.moduleid, pythonise w.tgt.moduleid)

/-- The graph built in `parse_pipe_def` before pruning:
`defaultdict(list, gen_graph1(...))` then `graph[src].append(tgt)` for every
`gen_graph2` pair. -/
def buildDepGraph (pd : PipeDef) : List (String × List String) :=
  (gen_graph2 pd).foldl (fun g e => dictAppend g e.1 e.2)
    (pyDict (gen_graph1 pd))

/-- pipe2py.lib.utils.gen_graph3: drop every node whose edge list is empty
and which occurs in no node's edge list. -/
def gen_graph3 (graph : List (String × List String)) :
    List (String × List String) :=
  graph.filter fun nv => !nv.2.isEmpty || graph.any (fun mv => mv.2.contains nv.1)

/-- pipe2py.compile.parse_pipe_def. -/
def parse_pipe_def (pd : PipeDef) (pipe_name : String) : Pipe :=
  let modules := pyDict (gen_modules pd)
  let embed := pyDict (gen_embedded_modules pd)
  { name := pythonise pipe_name,
    modules := pyUpdate modules embed,
    embed := embed,
    graph := gen_graph3 (buildDepGraph pd),
    wires := pyDict (gen_wires pd) }

/-- Lexicographic comparison of character lists by code point, the order
Python's `sorted` uses on strings. -/
def listCharLe : List Char → List Char → Bool
  | [], _ => true
  | _ :: _, [] => false
  | a :: as, b :: bs => if a = b then listCharLe as bs else decide (a < b)

/-- Python string comparison `a <= b`. -/
def strLe (a b : String) : Bool :=
  listCharLe a.data b.data

/-- pipe2py.lib.utils.gen_dependencies: `pipe<type>` per module, plus
`pipe<embedded type>` when the module configuration embeds a module. -/
def gen_dependencies (pd : PipeDef) : List String :=
  pd.modules.flatMap fun m =>
    ("pipe" ++ m.mtype) ::
      (match m.embed with
       | some e => ["pipe" ++ e.etype]
       | none => [])

/-- pipe2py.lib.utils.extract_dependencies on a pipe definition:
`sorted(set(gen_dependencies(pipe_def)))`. -/
def extract_dependencies (pd : PipeDef) : List String :=
  List.insertionSort (fun a b => strLe a b = true) (gen_dependencies pd).dedup

/-- One external-input descriptor yielded by `gen_input`: the values of the
`position`, `name` and `prompt` configuration fields plus the type and value
of the `default` field. -/
structure InputDesc where
  position : String
  iname : String
  prompt : String
  dtype : String
  dvalue : String
deriving DecidableEq

/-- pipe2py.lib.utils.gen_input: modules carrying `position`, `name` and
`prompt` configuration entries describe an external input.  (The source reads
`conf['default']` outside its try block, crashing when it is absent; that
case is folded into the skip here, and no claim involves it.) -/
def gen_input (pd : PipeDef) : List InputDesc :=
  pd.modules.filterMap fun m =>
    match m.conf.lookup "position", m.conf.lookup "name",
        m.conf.lookup "prompt", m.conf.lookup "default" with
    | some pos, some nm, some pr, some df =>
        some { position := pos.value, iname := nm.value, prompt := pr.value,
               dtype := df.ftype, dvalue := df.value }
    | _, _, _, _ => none

/-- Python tuple comparison on input descriptors (lexicographic). -/
def descLe (x y : InputDesc) : Bool :=
  if x.position != y.position then strLe x.position y.position
  else if x.iname != y.iname then strLe x.iname y.iname
  else if x.prompt != y.prompt then strLe x.prompt y.prompt
  else if x.dtype != y.dtype then strLe x.dtype y.dtype
  else strLe x.dvalue y.dvalue

/-- pipe2py.lib.utils.extract_input: `sorted(list(gen_input(pipe_def)))`. -/
def extract_input (pd : PipeDef) : List InputDesc :=
  List.insertionSort (fun x y => descLe x y = true) (gen_input pd)

/-- Successors of a node in the adjacency structure. -/
def succsOf (graph : List (String × List String)) (n : String) : List String :=
  ((graph.lookup n).getD [])

/-- All nodes of the adjacency structure: keys and edge targets. -/
def graphNodes (graph : List (String × List String)) : List String :=
  (graph.map Prod.fst ++ graph.flatMap Prod.snd).dedup

/-- Nodes of `remaining` with no predecessor left in `remaining`: the nodes a
dependency-respecting order may emit next. -/
def readyNodes (graph : List (String × List String))
    (remaining : List String) : List String :=
  remaining.filter fun n =>
    remaining.all fun m => !(succsOf graph m).contains n

/-- Modelled from the spec: the iterative zero-in-degree removal loop of the
topological sorter (section 4.3); pipe2py/lib/topsort.py is not among the
provided sources.  Repeatedly emit all currently ready nodes (in insertion
order, the deterministic tie-break); when no node is ready and nodes remain,
fail naming the unresolved node set (the CyclicGraphError). -/
def kahnLoop (graph : List (String × List String)) :
    Nat → List String → List String → Except (List String) (List String)
  | 0, order, remaining =>
    if remaining.isEmpty then Except.ok order else Except.error remaining
  | fuel + 1, order, remaining =>
    if remaining.isEmpty then Except.ok order
    else if (readyNodes graph remaining).isEmpty then Except.error remaining
    else
      kahnLoop graph fuel (order ++ readyNodes graph remaining)
        (remaining.filter fun n => !(readyNodes graph remaining).contains n)

/-- Modelled from the spec: pipe2py.lib.topsort.topological_sort (section
4.3 of the spec); the error value names the unresolved node set. -/
def topological_sort (graph : List (String × List String)) :
    Except (List String) (List String) :=
  kahnLoop graph (graphNodes graph).length [] (graphNodes graph)

/-- An edge of the adjacency structure. -/
def isEdge (graph : List (String × List String)) (a b : String) : Bool :=
  (succsOf graph a).contains b

/-- Every two successive nodes of the list are joined by an edge. -/
def chainOk (graph : List (String × List String)) : List String → Bool
  | [] => true
  | [_] => true
  | a :: b :: rest => isEdge graph a b && chainOk graph (b :: rest)

/-- The nonempty list is a cycle of the adjacency structure: successive nodes
are joined by edges and an edge closes the last node back to the first. -/
def isCycleList (graph : List (String × List String)) (c : List String) :
    Bool :=
  match c with
  | [] => false
  | a :: rest =>
    chainOk graph (a :: rest) && isEdge graph ((a :: rest).getLast (by simp)) a

/-- The outcome of `build_pipeline`: the records branch hands back the last
module's stage; the describe branches hand back static metadata. -/
inductive PipeOut where
  | records (last : Option Step)
  | deps (l : List String)
  | inputs (l : List InputDesc)
  | combined (i : List InputDesc) (d : List String)
deriving DecidableEq

/-- The module ids whose constructor was invoked while assembling the given
steps mapping (a `Step.stage` is precisely the record of one constructor
invocation). -/
def invokedOf (steps : List (String × Step)) : List String :=
  steps.filterMap fun p =>
    match p.2 with
    | Step.stage _ _ mid => some mid
    | _ => none

/-- pipe2py.compile.build_pipeline: topologically sort the pruned graph, then
either assemble and return the final stage, or, under a describe flag, return
static metadata without assembling any step (the steps block is skipped
entirely; it is modelled as the empty mapping there).  The second component
lists the constructor invocations performed. -/
def build_pipeline (ctx : Context) (pipe : Pipe) (pd : PipeDef) :
    Except (List String) (PipeOut × List String) :=
  match topological_sort pipe.graph with
  | Except.error r => Except.error r
  | Except.ok module_ids =>
    let pydeps := extract_dependencies pd
    let pyinput := extract_input pd
    let steps := if describeFlag ctx then [] else get_steps ctx pipe module_ids
    if ctx.describe_input && ctx.describe_dependencies then
      Except.ok (PipeOut.combined pyinput pydeps, invokedOf steps)
    else if ctx.describe_input then
      Except.ok (PipeOut.inputs pyinput, invokedOf steps)
    else if ctx.describe_dependencies then
      Except.ok (PipeOut.deps pydeps, invokedOf steps)
    else
      Except.ok
        (PipeOut.records (module_ids.getLast?.bind fun mid => steps.lookup mid),
          invokedOf steps)

/-- A record flowing through the pipeline: a string-keyed mapping. -/
abbrev PRec := List (String × Nat)

/-- The mutable store records live in; an address is an index.  Mutation of a
record in place is an update of the store at its address, so aliasing between
branches is observable. -/
abbrev Store := List PRec

/-- Read the record at an address. -/
def readRec (st : Store) (a : Nat) : PRec :=
  st.getD a []

/-- `imap(deepcopy, iterator)` over a list of record addresses: each item is
copied into a freshly allocated cell holding an equal value, and the branch
receives the fresh addresses.  (The laziness of `imap` is modelled eagerly;
the claims concern which addresses a branch hands out, not when.) -/
def copyAll : Store → List Nat → Store × List Nat
  | st, [] => (st, [])
  | st, a :: as =>
    let p := copyAll (st ++ [readRec st a]) as
    (p.1, st.length :: p.2)

/-- One branch iterator produced by `tee`.  Distinct `tee` iterators are
distinct Python objects even when they deliver equal items; the index models
that object identity. -/
structure Branch where
  idx : Nat
  addrs : List Nat
deriving DecidableEq

/-- The `(imap(deepcopy, iterator) for iterator in tee(_INPUT, splits))`
comprehension of `Split.__init__`: each of the `splits` tee branches shares
the same upstream addresses and then deep-copies every item. -/
def mkSplitAux : Store → List Nat → Nat → Nat → Store × List Branch
  | st, _, _, 0 => (st, [])
  | st, input, j, b + 1 =>
    let p1 := copyAll st input
    let p2 := mkSplitAux p1.1 input (j + 1) b
    (p2.1, { idx := j, addrs := p1.2 } :: p2.2)

/-- pipe2py.modules.pipesplit.Split: the store after construction and the
branch iterators not yet handed out. -/
structure Split where
  store : Store
  iterators : List Branch
deriving DecidableEq

/-- `Split.__init__(context, _INPUT, conf, splits=2)`. -/
def Split.make (st : Store) (input : List Nat) (splits : Nat) : Split :=
  let p := mkSplitAux st input 0 splits
  { store := p.1, iterators := p.2 }

/-- `Split.__iter__`: hand out the next branch iterator; once the generator
of branches is exhausted it raises
`ValueError("split has 2 outputs, tried to activate third")`. -/
def Split.iter (s : Split) : Except String (Branch × Split) :=
  match s.iterators with
  | [] => Except.error "split has 2 outputs, tried to activate third"
  | b :: rest => Except.ok (b, { store := s.store, iterators := rest })

/-- `k` successive attach attempts on a split, collecting the branches. -/
def iterN : Split → Nat → Except String (List Branch × Split)
  | s, 0 => Except.ok ([], s)
  | s, k + 1 =>
    match Split.iter s with
    | Except.error e => Except.error e
    | Except.ok (b, s1) =>
      match iterN s1 k with
      | Except.error e => Except.error e
      | Except.ok (bs, s2) => Except.ok (b :: bs, s2)

deriving instance DecidableEq for Except

/-- A plain execution context: no describe flag set. -/
def ctxRun : Context :=
  { describe_input := false, describe_dependencies := false }

/-- Context with only the describe-dependencies flag set. -/
def ctxDeps : Context :=
  { describe_input := false, describe_dependencies := true }

/-- Context with both describe flags set. -/
def ctxBoth : Context :=
  { describe_input := true, describe_dependencies := true }

/-- Fixture: a fetch module feeding a split with two consumers. -/
def pdSplitFixture : PipeDef :=
  { modules := [
      { id := "f", mtype := "fetch", embed := none, conf := [] },
      { id := "s", mtype := "split", embed := none, conf := [] },
      { id := "a", mtype := "count", embed := none, conf := [] },
      { id := "b", mtype := "count", embed := none, conf := [] }],
    wires := [
      { id := "w0", src := { moduleid := "f", id := "_OUTPUT" },
        tgt := { moduleid := "s", id := "_INPUT" } },
      { id := "w1", src := { moduleid := "s", id := "_OUTPUT" },
        tgt := { moduleid := "a", id := "_INPUT" } },
      { id := "w2", src := { moduleid := "s", id := "_OUTPUT2" },
        tgt := { moduleid := "b", id := "_INPUT" } }] }

/-- The split fixture parsed. -/
def pipeSplitFixture : Pipe :=
  parse_pipe_def pdSplitFixture "testpipe"

/-- Fixture: fetch wired to a count module, with an orphan module `o` and an
auxiliary wire into terminal `extra` of `b`. -/
def pdWireFixture : PipeDef :=
  { modules := [
      { id := "a", mtype := "fetch", embed := none, conf := [] },
      { id := "b", mtype := "count", embed := none, conf := [] },
      { id := "o", mtype := "fetch", embed := none, conf := [] }],
    wires := [
      { id := "w1", src := { moduleid := "a", id := "_OUTPUT" },
        tgt := { moduleid := "b", id := "_INPUT" } },
      { id := "w2", src := { moduleid := "a", id := "_OUTPUT2" },
        tgt := { moduleid := "b", id := "extra" } }] }

/-- The wire fixture parsed. -/
def pipeWireFixture : Pipe :=
  parse_pipe_def pdWireFixture "testpipe"

/-- A steps mapping holding the sentinel stage and module `a`'s stage. -/
def stepsWireFixture : List (String × Step) :=
  [("forever", Step.forever), ("a", Step.stage "pipefetch" "pipe_fetch" "a")]

/-- The auxiliary wire of the wire fixture. -/
def wireExtra : Wire :=
  { id := "w2", src := { moduleid := "a", id := "_OUTPUT2" },
    tgt := { moduleid := "b", id := "extra" } }

/-- Module `b` of the wire fixture. -/
def modB : PModule :=
  { id := "b", mtype := "count", embed := none, conf := [] }

/-- The orphan module `o` of the wire fixture. -/
def modO : PModule :=
  { id := "o", mtype := "fetch", embed := none, conf := [] }

/-- Fixture: a loop module `l` owning embedded module `e` (type `count`),
with an extra `k := v1` entry in the embedded configuration. -/
def pdLoopFixture1 : PipeDef :=
  { modules := [
      { id := "f", mtype := "fetch", embed := none, conf := [] },
      { id := "l", mtype := "loop",
        embed := some { id := "e", etype := "count",
                        conf := [("k", { ftype := "text", value := "v1" })] },
        conf := [] }],
    wires := [
      { id := "w1", src := { moduleid := "f", id := "_OUTPUT" },
        tgt := { moduleid := "l", id := "_INPUT" } }] }

/-- Same fixture with the embedded module's configuration changed to
`k := v2`. -/
def pdLoopFixture2 : PipeDef :=
  { modules := [
      { id := "f", mtype := "fetch", embed := none, conf := [] },
      { id := "l", mtype := "loop",
        embed := some { id := "e", etype := "count",
                        conf := [("k", { ftype := "text", value := "v2" })] },
        conf := [] }],
    wires := [
      { id := "w1", src := { moduleid := "f", id := "_OUTPUT" },
        tgt := { moduleid := "l", id := "_INPUT" } }] }

/-- The first loop fixture parsed. -/
def pipeLoopFixture1 : Pipe :=
  parse_pipe_def pdLoopFixture1 "testpipe"

/-- The second loop fixture parsed. -/
def pipeLoopFixture2 : Pipe :=
  parse_pipe_def pdLoopFixture2 "testpipe"

/-- Fixture: the cyclic adjacency structure a -> b -> a. -/
def cyclicGraph : List (String × List String) :=
  [("a", ["b"]), ("b", ["a"])]

/-- Fixture store: two upstream records. -/
def storeFixture : Store :=
  [[("x", 1)], [("x", 2)]]

/-- The id normalization as the spec words it, in a single character-wise
pass: `-`, `:` and `/` become `_`, and an id beginning with a digit receives
the fixed `_` prefix.  Stated for comparison with `pythonise`. -/
def normaliseSpec (id : String) : String :=
  let r := id.data.map fun c =>
    if c = '-' ∨ c = ':' ∨ c = '/' then '_' else c
  match r with
  | [] => ""
  | c :: _ => if c.isDigit then ⟨'_' :: r⟩ else ⟨r⟩

/-- C1: for the fixture pipe, the split module `s` has two outgoing wires,
yet `_gen_pykwargs` supplies `splits = 0`: the counting predicate
`filter_func` never returns a value, so the filter drops every wire.  (The
claimed default of 2 from `Split.__init__` can never apply either, because
the keyword is always passed explicitly.) -/
theorem c1_split_count_evaluates_to_zero :
    ("splits", Kwarg.count 0)
        ∈ (gen_pykwargs ctxRun pipeSplitFixture "s" []).getD []
      ∧ (pipeSplitFixture.wires.filter
          (fun kw => pythonise kw.2.src.moduleid == "s")).length = 2 := by
  decide

/-- C5 (amended): for every embedded module, `_gen_steps` records the
constructor function itself — renamed to `pipe_<module_id>`, not invoked, and
with no arguments bound — under the embedded module's id, and
`_get_input_module` resolves the embedded module's default input to the
placeholder `_INPUT` rather than any compile-time stage. -/
theorem c5_embedded_constructor_recorded_unapplied (ctx : Context)
    (pipe : Pipe) (mid mname pname : String) (steps : List (String × Step))
    (h : (pipe.embed.lookup mid).isSome = true) :
    gen_steps ctx pipe mid mname pname steps
        = [(mid, Step.generator mname pname ("pipe_" ++ mid))]
      ∧ get_input_module pipe mid steps = InputRes.placeholder := by
  constructor
  · unfold gen_steps
    simp [h]
  · unfold get_input_module
    simp [h]

/-- Witness for C5's amended theorem at the loop fixture. -/
theorem c5_embedded_constructor_recorded_unapplied_witness :
    (pipeLoopFixture1.embed.lookup "e").isSome = true
      ∧ (gen_steps ctxRun pipeLoopFixture1 "e" "pipecount" "pipe_count"
            stepsWireFixture
          = [("e", Step.generator "pipecount" "pipe_count" ("pipe_" ++ "e"))]
        ∧ get_input_module pipeLoopFixture1 "e" stepsWireFixture
            = InputRes.placeholder) :=
  ⟨by decide,
    c5_embedded_constructor_recorded_unapplied ctxRun pipeLoopFixture1 "e"
      "pipecount" "pipe_count" stepsWireFixture (by decide)⟩

/-- C5 counterexample: the two loop fixtures differ only in the embedded
module's configuration, yet the step recorded for the embedded module is the
same value, so the recorded constructor is not partially applied with the
configuration (nothing at all is bound into it). -/
theorem c5_counterexample_no_conf_bound :
    gen_steps ctxRun pipeLoopFixture1 "e" "pipecount" "pipe_count" []
        = gen_steps ctxRun pipeLoopFixture2 "e" "pipecount" "pipe_count" []
      ∧ (pipeLoopFixture1.modules.lookup "e").map PModule.conf
          ≠ (pipeLoopFixture2.modules.lookup "e").map PModule.conf := by
  decide

/-- C10 counterexample: `pythonise` is not injective — the distinct external
ids `a-b` and `a:b`.normalize to the same internal id. -/
theorem c10_counterexample_not_injective :
    pythonise "a-b" = pythonise "a:b" ∧ "a-b" ≠ "a:b" := by
  decide

/-- C10 (amended): the id normalization is deterministic — it equals the
single character-wise pass `normaliseSpec`, which replaces `-`, `:` and `/`
by `_` and adds the fixed `_` prefix when the id begins with a digit — but it
is not collision-free. -/
theorem c10_pythonise_eq_single_pass (id : String) :
    pythonise id = normaliseSpec id := by
  unfold pythonise normaliseSpec pythoniseList replaceChar
  simp only [List.map_map]
  have hmap : ∀ c : Char,
      ((fun c => if c = '/' then '_' else c) ∘
        (fun c => if c = ':' then '_' else c) ∘
        (fun c => if c = '-' then '_' else c)) c
        = (fun c => if c = '-' ∨ c = ':' ∨ c = '/' then '_' else c) c := by
    intro c
    by_cases h1 : c = '-' <;> by_cases h2 : c = ':' <;> by_cases h3 : c = '/' <;>
      simp [h1, h2, h3, Function.comp]
  rw [List.map_congr_left (fun c _ => hmap c)]
  cases id.data.map fun c => if c = '-' ∨ c = ':' ∨ c = '/' then '_' else c with
  | nil => rfl
  | cons c r =>
    by_cases hd : c.isDigit = true <;> simp [hd]

theorem find?_filter_of_imp (p q : α → Bool) (l : List α)
    (h : ∀ x, p x = true → q x = true) :
    (l.filter q).find? p = l.find? p := by
  induction l with
  | nil => rfl
  | cons a l ih =>
    by_cases hq : q a = true
    · by_cases hp : p a = true
      · rw [List.filter_cons_of_pos hq, List.find?_cons_of_pos _ hp,
          List.find?_cons_of_pos _ hp]
      · rw [List.filter_cons_of_pos hq, List.find?_cons_of_neg _ (by simp [hp]),
          List.find?_cons_of_neg _ (by simp [hp]), ih]
    · have hp : ¬p a = true := fun hpa => hq (h a hpa)
      rw [List.filter_cons_of_neg (by simp [hq]), ih,
        List.find?_cons_of_neg _ (by simp [hp])]

/-- C2: for a non-embedded module, if some wire targets `(module, _INPUT)`
from an `_OUTPUT` terminal, `_get_input_module` resolves the default input to
the steps entry of that wire's source module; if no such wire exists it
resolves to the sentinel forever stage. -/
theorem c2_default_input_resolution (pipe : Pipe) (mid : String)
    (steps : List (String × Step))
    (hemb : pipe.embed.lookup mid = none)
    (hfor : steps.lookup "forever" = some Step.forever) :
    ((∃ kw ∈ pipe.wires, isDefaultInWire mid kw.2 = true) →
      ∃ kw ∈ pipe.wires, isDefaultInWire mid kw.2 = true ∧
        get_input_module pipe mid steps
          = InputRes.found (steps.lookup (pythonise kw.2.src.moduleid)))
    ∧ ((∀ kw ∈ pipe.wires, isDefaultInWire mid kw.2 = false) →
        get_input_module pipe mid steps = InputRes.found (some Step.forever)) := by
  have hembS : (pipe.embed.lookup mid).isSome = false := by
    rw [hemb]; rfl
  constructor
  · rintro ⟨kw, hmem, hp⟩
    have hsome : (pipe.wires.find? fun kw => isDefaultInWire mid kw.2).isSome := by
      rw [List.find?_isSome]
      exact ⟨kw, hmem, hp⟩
    obtain ⟨kw', hkw'⟩ := Option.isSome_iff_exists.mp hsome
    refine ⟨kw', List.mem_of_find?_eq_some hkw', ?_, ?_⟩
    · simpa using List.find?_some hkw'
    · unfold get_input_module findInputWire
      simp [hembS, hkw']
  · intro hall
    have hnone : pipe.wires.find? (fun kw => isDefaultInWire mid kw.2) = none := by
      rw [List.find?_eq_none]
      intro x hx
      simp [hall x hx]
    unfold get_input_module findInputWire
    simp [hembS, hnone, hfor]

/-- Witness for C2 at the wire fixture: module `b` is fed by module `a`. -/
theorem c2_default_input_resolution_witness :
    pipeWireFixture.embed.lookup "b" = none
      ∧ stepsWireFixture.lookup "forever" = some Step.forever
      ∧ ((∃ kw ∈ pipeWireFixture.wires, isDefaultInWire "b" kw.2 = true) →
          ∃ kw ∈ pipeWireFixture.wires, isDefaultInWire "b" kw.2 = true ∧
            get_input_module pipeWireFixture "b" stepsWireFixture
              = InputRes.found
                  (stepsWireFixture.lookup (pythonise kw.2.src.moduleid))) :=
  ⟨by decide, by decide,
    (c2_default_input_resolution pipeWireFixture "b" stepsWireFixture
      (by decide) (by decide)).1⟩

/-- C3: a wire into a non-`_INPUT` terminal from an `_OUTPUT` terminal makes
`_gen_pykwargs` yield a keyword argument named by the pythonised target
terminal and bound to the source module's steps entry, and the default-input
resolution of `_get_input_module` is unaffected by non-`_INPUT` wires
(restricting the wire map to `_INPUT`-targeted wires leaves it unchanged). -/
theorem c3_aux_input_resolution (ctx : Context) (pipe : Pipe) (mid : String)
    (steps : List (String × Step)) (kw : String × Wire) (m : PModule)
    (hm : pipe.modules.lookup mid = some m)
    (hctx : describeFlag ctx = false)
    (hkw : kw ∈ pipe.wires)
    (haux : isAuxInWire mid kw.2 = true) :
    (pythonise kw.2.tgt.id,
        Kwarg.input (steps.lookup (pythonise kw.2.src.moduleid)))
      ∈ (gen_pykwargs ctx pipe mid steps).getD []
    ∧ get_input_module pipe mid steps
        = get_input_module
            { pipe with
                wires := pipe.wires.filter (fun w => w.2.tgt.id == "_INPUT") }
            mid steps := by
  constructor
  · unfold gen_pykwargs
    rw [hm, hctx]
    simp only [Option.map_some', Option.getD_some, Bool.false_eq_true,
      if_false]
    refine List.mem_cons_of_mem _ ?_
    refine List.mem_append_left _ (List.mem_append_left _ ?_)
    exact List.mem_map_of_mem _ (List.mem_filter.mpr ⟨hkw, haux⟩)
  · unfold get_input_module findInputWire
    have hfind : (pipe.wires.filter fun w => w.2.tgt.id == "_INPUT").find?
        (fun kw => isDefaultInWire mid kw.2)
        = pipe.wires.find? (fun kw => isDefaultInWire mid kw.2) := by
      apply find?_filter_of_imp
      intro x hx
      unfold isDefaultInWire at hx
      simp only [Bool.and_eq_true] at hx
      exact hx.1.2
    simp only [hfind]

/-- Witness for C3 at the wire fixture: the wire `w2` into terminal `extra`
of module `b`. -/
theorem c3_aux_input_resolution_witness :
    pipeWireFixture.modules.lookup "b" = some modB
      ∧ describeFlag ctxRun = false
      ∧ ("w2", wireExtra) ∈ pipeWireFixture.wires
      ∧ ((pythonise ("w2", wireExtra).2.tgt.id,
            Kwarg.input (stepsWireFixture.lookup
              (pythonise ("w2", wireExtra).2.src.moduleid)))
          ∈ (gen_pykwargs ctxRun pipeWireFixture "b" stepsWireFixture).getD []
        ∧ get_input_module pipeWireFixture "b" stepsWireFixture
            = get_input_module
                { pipeWireFixture with
                    wires := pipeWireFixture.wires.filter
                      (fun w => w.2.tgt.id == "_INPUT") }
                "b" stepsWireFixture) :=
  ⟨by decide, by decide, by decide,
    c3_aux_input_resolution ctxRun pipeWireFixture "b" stepsWireFixture
      ("w2", wireExtra) modB
      (by decide) (by decide) (by decide) (by decide)⟩


theorem copyAll_store_length (input : List Nat) :
    ∀ st : Store, (copyAll st input).1.length = st.length + input.length := by
  induction input with
  | nil => intro st; simp [copyAll]
  | cons a as ih =>
    intro st
    unfold copyAll
    rw [ih]
    simp
    omega

theorem copyAll_store (input : List Nat) :
    ∀ st : Store, (∀ a ∈ input, a < st.length) →
      (copyAll st input).1 = st ++ input.map (readRec st) := by
  induction input with
  | nil => intro st _; simp [copyAll]
  | cons a as ih =>
    intro st h
    unfold copyAll
    have hst1 : ∀ b ∈ as, b < (st ++ [readRec st a]).length := by
      intro b hb
      have := h b (List.mem_cons_of_mem _ hb)
      simp
      omega
    rw [ih (st ++ [readRec st a]) hst1]
    have hmap : as.map (readRec (st ++ [readRec st a])) = as.map (readRec st) := by
      apply List.map_congr_left
      intro b hb
      unfold readRec
      rw [List.getD_append _ _ _ _ (h b (List.mem_cons_of_mem _ hb))]
    rw [hmap]
    simp

theorem copyAll_addrs (input : List Nat) :
    ∀ st : Store, (copyAll st input).2
      = (List.range input.length).map (fun i => st.length + i) := by
  induction input with
  | nil => intro st; simp [copyAll]
  | cons a as ih =>
    intro st
    unfold copyAll
    dsimp only
    rw [ih (st ++ [readRec st a])]
    simp only [List.length_cons, List.range_succ_eq_map, List.map_cons,
      List.map_map, List.length_append, List.length_cons, List.length_nil]
    rw [List.cons.injEq]
    refine ⟨by omega, ?_⟩
    apply List.map_congr_left
    intro i _
    simp [Function.comp]
    omega

theorem mkSplitAux_store_prefix (input : List Nat) :
    ∀ (b : Nat) (st : Store) (j : Nat),
      ∃ t, (mkSplitAux st input j b).1 = st ++ t := by
  intro b
  induction b with
  | zero => intro st j; exact ⟨[], by simp [mkSplitAux]⟩
  | succ b ih =>
    intro st j
    unfold mkSplitAux
    have hc : ∃ t0, (copyAll st input).1 = st ++ t0 := by
      clear ih
      induction input generalizing st with
      | nil => exact ⟨[], by simp [copyAll]⟩
      | cons a as ihn =>
        unfold copyAll
        obtain ⟨t1, ht1⟩ := ihn (st ++ [readRec st a])
        exact ⟨[readRec st a] ++ t1, by rw [ht1]; simp⟩
    obtain ⟨t0, ht0⟩ := hc
    obtain ⟨t1, ht1⟩ := ih (copyAll st input).1 (j + 1)
    exact ⟨t0 ++ t1, by rw [ht1, ht0]; simp⟩

theorem mkSplitAux_branches_length (input : List Nat) :
    ∀ (b : Nat) (st : Store) (j : Nat),
      (mkSplitAux st input j b).2.length = b := by
  intro b
  induction b with
  | zero => intro st j; rfl
  | succ b ih =>
    intro st j
    unfold mkSplitAux
    simp [ih]

theorem mkSplitAux_idx (input : List Nat) :
    ∀ (b : Nat) (st : Store) (j : Nat),
      (mkSplitAux st input j b).2.map Branch.idx
        = (List.range b).map (fun p => j + p) := by
  intro b
  induction b with
  | zero => intro st j; rfl
  | succ b ih =>
    intro st j
    unfold mkSplitAux
    dsimp only
    simp only [List.map_cons, ih, List.range_succ_eq_map, List.map_map]
    rw [List.cons.injEq]
    refine ⟨by omega, ?_⟩
    apply List.map_congr_left
    intro p _
    simp [Function.comp]
    omega

theorem mkSplitAux_branchAddrs (input : List Nat) :
    ∀ (b : Nat) (st : Store) (j p : Nat), p < b →
      ((mkSplitAux st input j b).2.getD p { idx := 0, addrs := [] }).addrs
        = (List.range input.length).map
            (fun i => st.length + p * input.length + i) := by
  intro b
  induction b with
  | zero => intro st j p hp; omega
  | succ b ih =>
    intro st j p hp
    unfold mkSplitAux
    cases p with
    | zero =>
      simp only [List.getD_cons_zero]
      rw [copyAll_addrs]
      apply List.map_congr_left
      intro i _
      omega
    | succ p =>
      simp only [List.getD_cons_succ]
      rw [ih (copyAll st input).1 (j + 1) p (by omega)]
      rw [copyAll_store_length]
      apply List.map_congr_left
      intro i _
      have h1 : (p + 1) * input.length = p * input.length + input.length := by
        ring
      omega

theorem mkSplitAux_read (input : List Nat) :
    ∀ (b : Nat) (st : Store) (j p i : Nat),
      (∀ a ∈ input, a < st.length) → p < b → i < input.length →
      readRec ((mkSplitAux st input j b).1)
          (st.length + p * input.length + i)
        = readRec st (input.getD i 0) := by
  intro b
  induction b with
  | zero => intro st j p i _ hp _; omega
  | succ b ih =>
    intro st j p i hin hp hi
    have hmem : input.getD i 0 ∈ input := by
      rw [List.getD_eq_getElem _ _ hi]
      exact List.getElem_mem hi
    unfold mkSplitAux
    cases p with
    | zero =>
      obtain ⟨t, ht⟩ :=
        mkSplitAux_store_prefix input b (copyAll st input).1 (j + 1)
      rw [ht, copyAll_store input st hin]
      unfold readRec
      have haddr : st.length + 0 * input.length + i = st.length + i := by omega
      rw [haddr, List.append_assoc,
        List.getD_append_right _ _ _ _ (by omega)]
      have hsub : st.length + i - st.length = i := by omega
      rw [hsub, List.getD_append _ _ _ _ (by simpa using hi)]
      rw [List.getD_eq_getElem?_getD, List.getElem?_map,
        List.getD_eq_getElem?_getD]
      cases hg : input[i]? with
      | none =>
        rw [List.getElem?_eq_none_iff] at hg
        omega
      | some a =>
        simp [hg]
    | succ p =>
      have hin1 : ∀ a ∈ input, a < (copyAll st input).1.length := by
        intro a ha
        rw [copyAll_store_length]
        have := hin a ha
        omega
      have hIH := ih (copyAll st input).1 (j + 1) p i hin1 (by omega) hi
      rw [copyAll_store_length] at hIH
      have harith : st.length + (p + 1) * input.length + i
          = st.length + input.length + p * input.length + i := by ring
      rw [harith, hIH, copyAll_store input st hin]
      unfold readRec
      rw [List.getD_append _ _ _ _ (hin _ hmem)]

theorem getD_map_range (f : Nat → Nat) (n i : Nat) (h : i < n) :
    ((List.range n).map f).getD i 0 = f i := by
  rw [List.getD_eq_getElem?_getD, List.getElem?_map, List.getElem?_range h]
  rfl

theorem readRec_set_ne (st : Store) (a1 a2 : Nat) (r : PRec) (h : a1 ≠ a2) :
    readRec (st.set a1 r) a2 = readRec st a2 := by
  unfold readRec
  rw [List.getD_eq_getElem?_getD, List.getD_eq_getElem?_getD,
    List.getElem?_set_ne h]

theorem branch_addr_lt (len b1 b2 i st0 : Nat) (hlt : b1 < b2) (hi : i < len) :
    st0 + b1 * len + i < st0 + b2 * len + i := by
  have h1 : b1 * len + len ≤ b2 * len := by
    have h2 : b1 + 1 ≤ b2 := hlt
    calc b1 * len + len = (b1 + 1) * len := by ring
      _ ≤ b2 * len := Nat.mul_le_mul_right len h2
  omega

/-- C6: every branch of a split receives, at every index, a freshly allocated
deep copy of the upstream record: the two branches' records live at distinct
addresses holding the upstream value, and mutating the record received on one
branch leaves the corresponding record of the sibling branch unchanged. -/
theorem c6_split_branch_independence (st : Store) (input : List Nat)
    (splits b1 b2 i : Nat) (r : PRec)
    (hin : ∀ a ∈ input, a < st.length)
    (hb1 : b1 < splits) (hb2 : b2 < splits) (hne : b1 ≠ b2)
    (hi : i < input.length) :
    (((Split.make st input splits).iterators.getD b1
          { idx := 0, addrs := [] }).addrs.getD i 0
        ≠ ((Split.make st input splits).iterators.getD b2
          { idx := 0, addrs := [] }).addrs.getD i 0)
    ∧ readRec (Split.make st input splits).store
        (((Split.make st input splits).iterators.getD b1
          { idx := 0, addrs := [] }).addrs.getD i 0)
        = readRec st (input.getD i 0)
    ∧ readRec (Split.make st input splits).store
        (((Split.make st input splits).iterators.getD b2
          { idx := 0, addrs := [] }).addrs.getD i 0)
        = readRec st (input.getD i 0)
    ∧ readRec ((Split.make st input splits).store.set
          (((Split.make st input splits).iterators.getD b1
            { idx := 0, addrs := [] }).addrs.getD i 0) r)
        (((Split.make st input splits).iterators.getD b2
          { idx := 0, addrs := [] }).addrs.getD i 0)
        = readRec (Split.make st input splits).store
            (((Split.make st input splits).iterators.getD b2
              { idx := 0, addrs := [] }).addrs.getD i 0) := by
  have haddr : ∀ b, b < splits →
      ((Split.make st input splits).iterators.getD b
        { idx := 0, addrs := [] }).addrs.getD i 0
        = st.length + b * input.length + i := by
    intro b hb
    show ((mkSplitAux st input 0 splits).2.getD b
      { idx := 0, addrs := [] }).addrs.getD i 0 = _
    rw [mkSplitAux_branchAddrs input splits st 0 b hb]
    exact getD_map_range _ _ _ hi
  have ha1 := haddr b1 hb1
  have ha2 := haddr b2 hb2
  have hne' : st.length + b1 * input.length + i
      ≠ st.length + b2 * input.length + i := by
    rcases Nat.lt_or_ge b1 b2 with h | h
    · exact Nat.ne_of_lt (branch_addr_lt _ _ _ _ _ h hi)
    · have hlt : b2 < b1 := Nat.lt_of_le_of_ne h (fun e => hne e.symm)
      exact (Nat.ne_of_lt (branch_addr_lt _ _ _ _ _ hlt hi)).symm
  rw [ha1, ha2]
  refine ⟨hne', ?_, ?_, ?_⟩
  · exact mkSplitAux_read input splits st 0 b1 i hin hb1 hi
  · exact mkSplitAux_read input splits st 0 b2 i hin hb2 hi
  · exact readRec_set_ne _ _ _ _ hne'

/-- Witness for C6: two records through a 2-way split; mutating branch 0's
first record leaves branch 1's first record unchanged. -/
theorem c6_split_branch_independence_witness :
    (∀ a ∈ [0, 1], a < storeFixture.length)
      ∧ (0 : Nat) < 2 ∧ (1 : Nat) < 2 ∧ (0 : Nat) ≠ 1 ∧ (0 : Nat) < ([0, 1] : List Nat).length
      ∧ ((((Split.make storeFixture [0, 1] 2).iterators.getD 0
            { idx := 0, addrs := [] }).addrs.getD 0 0
          ≠ ((Split.make storeFixture [0, 1] 2).iterators.getD 1
            { idx := 0, addrs := [] }).addrs.getD 0 0)
        ∧ readRec (Split.make storeFixture [0, 1] 2).store
            (((Split.make storeFixture [0, 1] 2).iterators.getD 0
              { idx := 0, addrs := [] }).addrs.getD 0 0)
            = readRec storeFixture (([0, 1] : List Nat).getD 0 0)
        ∧ readRec (Split.make storeFixture [0, 1] 2).store
            (((Split.make storeFixture [0, 1] 2).iterators.getD 1
              { idx := 0, addrs := [] }).addrs.getD 0 0)
            = readRec storeFixture (([0, 1] : List Nat).getD 0 0)
        ∧ readRec ((Split.make storeFixture [0, 1] 2).store.set
              (((Split.make storeFixture [0, 1] 2).iterators.getD 0
                { idx := 0, addrs := [] }).addrs.getD 0 0) [("x", 99)])
            (((Split.make storeFixture [0, 1] 2).iterators.getD 1
              { idx := 0, addrs := [] }).addrs.getD 0 0)
            = readRec (Split.make storeFixture [0, 1] 2).store
                (((Split.make storeFixture [0, 1] 2).iterators.getD 1
                  { idx := 0, addrs := [] }).addrs.getD 0 0)) :=
  ⟨by decide, by decide, by decide, by decide, by decide,
    c6_split_branch_independence storeFixture [0, 1] 2 0 1 0 [("x", 99)]
      (by decide) (by decide) (by decide) (by decide) (by decide)⟩

theorem iterN_full (store : Store) : ∀ bs : List Branch,
    iterN { store := store, iterators := bs } bs.length
      = Except.ok (bs, { store := store, iterators := [] }) := by
  intro bs
  induction bs with
  | nil => rfl
  | cons b rest ih =>
    have hlen : (b :: rest).length = rest.length + 1 := rfl
    rw [hlen]
    unfold iterN
    rw [show Split.iter { store := store, iterators := b :: rest }
        = Except.ok (b, { store := store, iterators := rest }) from rfl]
    dsimp only
    rw [ih]

/-- C7: a split constructed with fan-out `n` yields, over the first `n`
attach attempts, exactly its `n` pairwise-distinct branch iterators, and the
`(n+1)`-th attach attempt fails with the overactivation error (the source
raises `ValueError("split has 2 outputs, tried to activate third")`). -/
theorem c7_split_overactivation_fails_fast (st : Store) (input : List Nat)
    (n : Nat) :
    ∃ bs s1,
      iterN (Split.make st input n) n = Except.ok (bs, s1)
      ∧ bs.length = n
      ∧ bs.Nodup
      ∧ Split.iter s1
          = Except.error "split has 2 outputs, tried to activate third" := by
  refine ⟨(mkSplitAux st input 0 n).2,
    { store := (mkSplitAux st input 0 n).1, iterators := [] }, ?_, ?_, ?_, rfl⟩
  · have h := iterN_full (mkSplitAux st input 0 n).1 (mkSplitAux st input 0 n).2
    rw [mkSplitAux_branches_length input n st 0] at h
    exact h
  · exact mkSplitAux_branches_length input n st 0
  · have hnd : ((mkSplitAux st input 0 n).2.map Branch.idx).Nodup := by
      rw [mkSplitAux_idx input n st 0]
      refine List.Nodup.map ?_ (List.nodup_range n)
      intro x y hxy
      simpa using hxy
    exact List.Nodup.of_map _ hnd

theorem isEmpty_false_of_mem {l : List α} {x : α} (h : x ∈ l) :
    l.isEmpty = false := by
  cases l with
  | nil => cases h
  | cons a t => rfl

theorem chainOk_pred (g : List (String × List String)) :
    ∀ (a : String) (rest : List String), chainOk g (a :: rest) = true →
      ∀ x ∈ rest, ∃ p ∈ a :: rest, isEdge g p x = true := by
  intro a rest
  induction rest generalizing a with
  | nil =>
    intro _ x hx
    cases hx
  | cons b rs ih =>
    intro h x hx
    have h' : isEdge g a b = true ∧ chainOk g (b :: rs) = true := by
      have hh := h
      unfold chainOk at hh
      rw [Bool.and_eq_true] at hh
      exact hh
    cases hx with
    | head =>
      exact ⟨a, List.mem_cons_self a _, h'.1⟩
    | tail _ hx' =>
      obtain ⟨p, hp, he⟩ := ih b h'.2 x hx'
      exact ⟨p, List.mem_cons_of_mem _ hp, he⟩

theorem cycle_pred (g : List (String × List String)) (c : List String)
    (hc : isCycleList g c = true) :
    ∀ x ∈ c, ∃ p ∈ c, isEdge g p x = true := by
  cases c with
  | nil => simp [isCycleList] at hc
  | cons a rest =>
    have hc' : chainOk g (a :: rest) = true
        ∧ isEdge g ((a :: rest).getLast (by simp)) a = true := by
      have hh := hc
      unfold isCycleList at hh
      rw [Bool.and_eq_true] at hh
      exact hh
    intro x hx
    cases hx with
    | head =>
      exact ⟨(a :: rest).getLast (by simp), List.getLast_mem _, hc'.2⟩
    | tail _ hx' =>
      exact chainOk_pred g a rest hc'.1 x hx'

theorem kahnLoop_stuck (g : List (String × List String)) (C : List String)
    (hpred : ∀ x ∈ C, ∃ p ∈ C, isEdge g p x = true) (hne : C ≠ []) :
    ∀ (fuel : Nat) (order remaining : List String),
      (∀ x ∈ C, x ∈ remaining) →
      ∃ r, kahnLoop g fuel order remaining = Except.error r
        ∧ ∀ x ∈ C, x ∈ r := by
  intro fuel
  induction fuel with
  | zero =>
    intro order remaining hsub
    obtain ⟨x0, hx0⟩ := List.exists_mem_of_ne_nil C hne
    have hrem : remaining.isEmpty = false := isEmpty_false_of_mem (hsub x0 hx0)
    refine ⟨remaining, ?_, hsub⟩
    unfold kahnLoop
    rw [hrem]
    rfl
  | succ fuel ih =>
    intro order remaining hsub
    obtain ⟨x0, hx0⟩ := List.exists_mem_of_ne_nil C hne
    have hrem : remaining.isEmpty = false := isEmpty_false_of_mem (hsub x0 hx0)
    have hCr : ∀ x ∈ C, x ∉ readyNodes g remaining := by
      intro x hx hmem
      obtain ⟨p, hpC, hedge⟩ := hpred x hx
      have hpRem : p ∈ remaining := hsub p hpC
      have h2 := (List.mem_filter.mp hmem).2
      rw [List.all_eq_true] at h2
      have h3 := h2 p hpRem
      unfold isEdge at hedge
      simp only [Bool.not_eq_true'] at h3
      rw [h3] at hedge
      cases hedge
    cases hready : (readyNodes g remaining).isEmpty with
    | true =>
      refine ⟨remaining, ?_, hsub⟩
      unfold kahnLoop
      rw [hrem, hready]
      rfl
    | false =>
      have hsub' : ∀ x ∈ C,
          x ∈ remaining.filter (fun n => !(readyNodes g remaining).contains n) := by
        intro x hx
        rw [List.mem_filter]
        refine ⟨hsub x hx, ?_⟩
        simpa using hCr x hx
      obtain ⟨r, hr, hsubr⟩ :=
        ih (order ++ readyNodes g remaining)
          (remaining.filter fun n => !(readyNodes g remaining).contains n) hsub'
      refine ⟨r, ?_, hsubr⟩
      unfold kahnLoop
      rw [hrem, hready]
      exact hr

theorem mem_of_lookup_eq_some {β : Type} {l : List (String × β)} {k : String}
    {v : β} (h : l.lookup k = some v) : (k, v) ∈ l := by
  induction l with
  | nil => cases h
  | cons a l ih =>
    rw [List.lookup] at h
    cases hbeq : k == a.1 with
    | true =>
      rw [hbeq] at h
      simp only at h
      cases h
      have hk : k = a.1 := eq_of_beq hbeq
      have : (k, a.2) = a := by
        rw [hk]
      rw [this]
      exact List.mem_cons_self a l
    | false =>
      rw [hbeq] at h
      simp only at h
      exact List.mem_cons_of_mem _ (ih h)

/-- C4 (spec-modelled topological sorter): on any adjacency structure that
contains a cycle, `topological_sort` fails with the cyclic-graph error whose
payload names the unresolved node set — a set containing the whole cycle — so
no (partial) order is ever returned for a cyclic graph. -/
theorem c4_cycle_fails_with_unresolved_set
    (graph : List (String × List String)) (c : List String)
    (hc : isCycleList graph c = true) :
    ∃ r, topological_sort graph = Except.error r
      ∧ r ≠ [] ∧ ∀ x ∈ c, x ∈ r := by
  have hpred := cycle_pred graph c hc
  have hne : c ≠ [] := by
    cases c with
    | nil => simp [isCycleList] at hc
    | cons a rest => simp
  have hsub : ∀ x ∈ c, x ∈ graphNodes graph := by
    intro x hx
    obtain ⟨p, hpc, hedge⟩ := hpred x hx
    unfold isEdge succsOf at hedge
    cases hlk : graph.lookup p with
    | none =>
      rw [hlk] at hedge
      cases hedge
    | some l =>
      rw [hlk] at hedge
      simp only [Option.getD_some] at hedge
      have hxl : x ∈ l := by simpa using hedge
      have hpl : (p, l) ∈ graph := mem_of_lookup_eq_some hlk
      unfold graphNodes
      rw [List.mem_dedup]
      apply List.mem_append_right
      rw [List.mem_flatMap]
      exact ⟨(p, l), hpl, hxl⟩
  obtain ⟨r, hr, hsubr⟩ :=
    kahnLoop_stuck graph c hpred hne (graphNodes graph).length []
      (graphNodes graph) hsub
  refine ⟨r, hr, ?_, hsubr⟩
  obtain ⟨x, hx⟩ := List.exists_mem_of_ne_nil c hne
  intro h0
  rw [h0] at hsubr
  exact absurd (hsubr x hx) (List.not_mem_nil x)

/-- Witness for C4 at the two-node cycle a -> b -> a. -/
theorem c4_cycle_fails_with_unresolved_set_witness :
    isCycleList cyclicGraph ["a", "b"] = true
      ∧ ∃ r, topological_sort cyclicGraph = Except.error r
          ∧ r ≠ [] ∧ ∀ x ∈ (["a", "b"] : List String), x ∈ r :=
  ⟨by decide,
    c4_cycle_fails_with_unresolved_set cyclicGraph ["a", "b"] (by decide)⟩

theorem kahnLoop_ok_subset (g : List (String × List String)) :
    ∀ (fuel : Nat) (order remaining l : List String),
      kahnLoop g fuel order remaining = Except.ok l →
      ∀ x ∈ l, x ∈ order ∨ x ∈ remaining := by
  intro fuel
  induction fuel with
  | zero =>
    intro order remaining l h x hx
    unfold kahnLoop at h
    split at h
    · cases h
      exact Or.inl hx
    · cases h
  | succ fuel ih =>
    intro order remaining l h x hx
    unfold kahnLoop at h
    split at h
    · cases h
      exact Or.inl hx
    · split at h
      · cases h
      · rcases ih _ _ _ h x hx with h1 | h2
        · rcases List.mem_append.mp h1 with h3 | h4
          · exact Or.inl h3
          · exact Or.inr (List.mem_of_mem_filter h4)
        · exact Or.inr (List.mem_of_mem_filter h2)

theorem lookup_isSome_iff {β : Type} (l : List (String × β)) (k : String) :
    (l.lookup k).isSome = true ↔ k ∈ l.map Prod.fst := by
  induction l with
  | nil => simp [List.lookup]
  | cons a l ih =>
    rw [List.lookup]
    cases hbeq : k == a.1 with
    | true =>
      have hk : k = a.1 := eq_of_beq hbeq
      simp [hk]
    | false =>
      have hk : ¬k = a.1 := by
        intro he
        rw [he] at hbeq
        simp at hbeq
      simp only [List.map_cons, List.mem_cons]
      constructor
      · intro h
        exact Or.inr (ih.mp h)
      · intro h
        rcases h with h | h
        · exact absurd h hk
        · exact ih.mpr h

theorem lookup_eq_none_iff {β : Type} (l : List (String × β)) (k : String) :
    l.lookup k = none ↔ k ∉ l.map Prod.fst := by
  rw [← lookup_isSome_iff]
  cases h : l.lookup k <;> simp

theorem eq_of_mem_lookup_nodup {β : Type} {l : List (String × β)} {k : String}
    {w v : β} (hnd : (l.map Prod.fst).Nodup) (hmem : (k, w) ∈ l)
    (hlk : l.lookup k = some v) : w = v := by
  induction l with
  | nil => cases hmem
  | cons a l ih =>
    rw [List.map_cons, List.nodup_cons] at hnd
    cases hmem with
    | head =>
      simpa [List.lookup] using hlk
    | tail _ hmem' =>
      have hkeys : k ∈ l.map Prod.fst := by
        have := List.mem_map_of_mem Prod.fst hmem'
        simpa using this
      have hka : (k == a.1) = false := by
        rw [Bool.eq_false_iff]
        intro hbeq
        exact hnd.1 ((eq_of_beq hbeq) ▸ hkeys)
      rw [List.lookup, hka] at hlk
      exact ih hnd.2 hmem' hlk

theorem lookup_filter_none {β : Type} (p : String × β → Bool)
    (l : List (String × β)) (k : String)
    (h : ∀ e ∈ l, e.1 = k → p e = false) :
    (l.filter p).lookup k = none := by
  induction l with
  | nil => rfl
  | cons a l ih =>
    have hrest : (l.filter p).lookup k = none :=
      ih fun e he => h e (List.mem_cons_of_mem _ he)
    by_cases hp : p a = true
    · rw [List.filter_cons_of_pos hp, List.lookup]
      have hka : (k == a.1) = false := by
        rw [Bool.eq_false_iff]
        intro hbeq
        have := h a (List.mem_cons_self a l) (eq_of_beq hbeq).symm
        rw [hp] at this
        cases this
      rw [hka]
      exact hrest
    · rw [List.filter_cons_of_neg (by simpa using hp)]
      exact hrest

theorem keys_dictSet_pos {β : Type} {d : List (String × β)} {a : String}
    (b : β) (h : d.any (fun p => p.1 == a) = true) :
    (dictSet d a b).map Prod.fst = d.map Prod.fst := by
  unfold dictSet
  rw [if_pos h, List.map_map]
  apply List.map_congr_left
  intro p _
  by_cases hp : (p.1 == a) = true
  · simp only [Function.comp, hp, if_true]
    exact (eq_of_beq hp).symm
  · simp [Function.comp, hp]

theorem keys_dictSet_neg {β : Type} {d : List (String × β)} {a : String}
    (b : β) (h : d.any (fun p => p.1 == a) = false) :
    (dictSet d a b).map Prod.fst = d.map Prod.fst ++ [a] := by
  unfold dictSet
  rw [if_neg (by simp [h]), List.map_append]
  rfl

theorem not_mem_keys_of_any_false {β : Type} {d : List (String × β)}
    {a : String} (h : d.any (fun p => p.1 == a) = false) :
    a ∉ d.map Prod.fst := by
  intro hmem
  obtain ⟨p, hp, hfst⟩ := List.mem_map.mp hmem
  rw [List.any_eq_false] at h
  have := h p hp
  rw [hfst] at this
  simp at this

theorem nodup_keys_dictSet {β : Type} {d : List (String × β)} {a : String}
    (b : β) (hnd : (d.map Prod.fst).Nodup) :
    ((dictSet d a b).map Prod.fst).Nodup := by
  cases h : d.any (fun p => p.1 == a) with
  | true => rw [keys_dictSet_pos b h]; exact hnd
  | false =>
    rw [keys_dictSet_neg b h]
    rw [List.nodup_append]
    exact ⟨hnd, List.nodup_singleton a,
      fun x hx hx1 => (List.mem_singleton.mp hx1 ▸ not_mem_keys_of_any_false h) hx⟩

theorem mem_keys_dictSet_of_mem {β : Type} {d : List (String × β)}
    {a k : String} (b : β) (h : k ∈ d.map Prod.fst) :
    k ∈ (dictSet d a b).map Prod.fst := by
  cases hany : d.any (fun p => p.1 == a) with
  | true => rw [keys_dictSet_pos b hany]; exact h
  | false => rw [keys_dictSet_neg b hany]; exact List.mem_append_left _ h

theorem mem_keys_dictSet_self {β : Type} (d : List (String × β))
    (a : String) (b : β) : a ∈ (dictSet d a b).map Prod.fst := by
  cases hany : d.any (fun p => p.1 == a) with
  | true =>
    rw [keys_dictSet_pos b hany]
    rw [List.any_eq_true] at hany
    obtain ⟨p, hp, hbeq⟩ := hany
    rw [← eq_of_beq hbeq]
    exact List.mem_map_of_mem Prod.fst hp
  | false =>
    rw [keys_dictSet_neg b hany]
    exact List.mem_append_right _ (List.mem_singleton_self a)

theorem nodup_keys_dictAppend {d : List (String × List String)}
    {k v : String} (hnd : (d.map Prod.fst).Nodup) :
    ((dictAppend d k v).map Prod.fst).Nodup := by
  unfold dictAppend
  by_cases h : d.any (fun p => p.1 == k) = true
  · rw [if_pos h, List.map_map]
    have : d.map (Prod.fst ∘ fun p => if p.1 == k then (p.1, p.2 ++ [v]) else p)
        = d.map Prod.fst := by
      apply List.map_congr_left
      intro p _
      by_cases hp : (p.1 == k) = true <;> simp [Function.comp, hp]
    rw [this]
    exact hnd
  · rw [if_neg h]
    simp only [List.map_append, List.map_cons, List.map_nil]
    rw [List.nodup_append]
    refine ⟨hnd, by simp, fun x hx hx1 => ?_⟩
    have hfalse : d.any (fun p => p.1 == k) = false := by
      cases hh : d.any (fun p => p.1 == k)
      · rfl
      · exact absurd hh h
    have hxk : x = k := by simpa using hx1
    exact (hxk ▸ not_mem_keys_of_any_false hfalse) hx

theorem nodup_keys_pyDict_aux {β : Type} (ps : List (String × β)) :
    ∀ acc : List (String × β), (acc.map Prod.fst).Nodup →
      ((ps.foldl (fun d p => dictSet d p.1 p.2) acc).map Prod.fst).Nodup := by
  induction ps with
  | nil => intro acc h; exact h
  | cons p ps ih =>
    intro acc h
    exact ih (dictSet acc p.1 p.2) (nodup_keys_dictSet p.2 h)

theorem nodup_keys_pyDict {β : Type} (ps : List (String × β)) :
    ((pyDict ps).map Prod.fst).Nodup :=
  nodup_keys_pyDict_aux ps [] List.nodup_nil

theorem nodup_keys_buildDepGraph (pd : PipeDef) :
    ((buildDepGraph pd).map Prod.fst).Nodup := by
  unfold buildDepGraph
  generalize (gen_graph2 pd) = es
  have h0 : ((pyDict (gen_graph1 pd)).map Prod.fst).Nodup :=
    nodup_keys_pyDict _
  generalize hg : pyDict (gen_graph1 pd) = g0 at h0
  clear hg
  induction es generalizing g0 with
  | nil => exact h0
  | cons e es ih =>
    exact ih (dictAppend g0 e.1 e.2) (nodup_keys_dictAppend h0)

theorem mem_keys_pyDict_aux {β : Type} (ps : List (String × β)) :
    ∀ (acc : List (String × β)) (k : String),
      k ∈ acc.map Prod.fst ∨ k ∈ ps.map Prod.fst →
      k ∈ ((ps.foldl (fun d p => dictSet d p.1 p.2) acc).map Prod.fst) := by
  induction ps with
  | nil =>
    intro acc k h
    rcases h with h | h
    · exact h
    · cases h
  | cons p ps ih =>
    intro acc k h
    apply ih (dictSet acc p.1 p.2) k
    rcases h with h | h
    · exact Or.inl (mem_keys_dictSet_of_mem p.2 h)
    · rw [List.map_cons, List.mem_cons] at h
      rcases h with h | h
      · rw [h]
        exact Or.inl (mem_keys_dictSet_self acc p.1 p.2)
      · exact Or.inr h

theorem mem_keys_pyDict {β : Type} (ps : List (String × β)) (k : String)
    (h : k ∈ ps.map Prod.fst) : k ∈ (pyDict ps).map Prod.fst :=
  mem_keys_pyDict_aux ps [] k (Or.inr h)

theorem mem_keys_pyUpdate {β : Type} (d2 : List (String × β)) :
    ∀ (d1 : List (String × β)) (k : String), k ∈ d1.map Prod.fst →
      k ∈ (pyUpdate d1 d2).map Prod.fst := by
  induction d2 with
  | nil => intro d1 k h; exact h
  | cons p d2 ih =>
    intro d1 k h
    exact ih (dictSet d1 p.1 p.2) k (mem_keys_dictSet_of_mem p.2 h)

/-- C8: a node of the built dependency graph whose adjacency list is empty
and which occurs in no node's adjacency list is pruned from the parsed
pipe's graph (and hence appears in no topological order of that graph),
while its key remains present in the parsed pipe's modules map. -/
theorem c8_orphan_pruned_but_looked_up (pd : PipeDef) (m : PModule)
    (nm : String) (hm : m ∈ pd.modules)
    (hempty : (buildDepGraph pd).lookup (pythonise m.id) = some [])
    (htgt : ∀ e ∈ buildDepGraph pd, pythonise m.id ∉ e.2) :
    (parse_pipe_def pd nm).graph.lookup (pythonise m.id) = none
    ∧ pythonise m.id ∈ (parse_pipe_def pd nm).modules.map Prod.fst
    ∧ ∀ l, topological_sort (parse_pipe_def pd nm).graph = Except.ok l →
        pythonise m.id ∉ l := by
  have hnd := nodup_keys_buildDepGraph pd
  have hgraph : (parse_pipe_def pd nm).graph
      = gen_graph3 (buildDepGraph pd) := rfl
  have h1 : (gen_graph3 (buildDepGraph pd)).lookup (pythonise m.id) = none := by
    unfold gen_graph3
    apply lookup_filter_none
    intro e he h1e
    have hmemE : (pythonise m.id, e.2) ∈ buildDepGraph pd := by
      rw [← h1e]
      simpa using he
    have he2 : e.2 = [] := eq_of_mem_lookup_nodup hnd hmemE hempty
    have hany : (buildDepGraph pd).any (fun mv => mv.2.contains e.1) = false := by
      rw [List.any_eq_false]
      intro mv hmv
      rw [h1e]
      simpa using htgt mv hmv
    simp only [he2, List.isEmpty_nil, Bool.not_true, Bool.false_or]
    exact hany
  refine ⟨by rw [hgraph]; exact h1, ?_, ?_⟩
  · show pythonise m.id
      ∈ (pyUpdate (pyDict (gen_modules pd))
          (pyDict (gen_embedded_modules pd))).map Prod.fst
    apply mem_keys_pyUpdate
    apply mem_keys_pyDict
    unfold gen_modules
    rw [List.map_map]
    exact List.mem_map.mpr ⟨m, hm, rfl⟩
  · intro l hok hmem
    unfold topological_sort at hok
    have hsub := kahnLoop_ok_subset (parse_pipe_def pd nm).graph _ _ _ _ hok
      (pythonise m.id) hmem
    rcases hsub with hord | hnodes
    · cases hord
    · unfold graphNodes at hnodes
      rw [List.mem_dedup, List.mem_append] at hnodes
      rcases hnodes with hkeys | hsucc
      · rw [← lookup_isSome_iff, hgraph, h1] at hkeys
        cases hkeys
      · rw [List.mem_flatMap] at hsucc
        obtain ⟨e, he, hmem2⟩ := hsucc
        rw [hgraph] at he
        unfold gen_graph3 at he
        exact htgt e (List.mem_of_mem_filter he) hmem2

/-- Witness for C8: the orphan module `o` of the wire fixture. -/
theorem c8_orphan_pruned_but_looked_up_witness :
    modO ∈ pdWireFixture.modules
      ∧ (buildDepGraph pdWireFixture).lookup (pythonise modO.id) = some []
      ∧ (∀ e ∈ buildDepGraph pdWireFixture, pythonise modO.id ∉ e.2)
      ∧ ((parse_pipe_def pdWireFixture "testpipe").graph.lookup
            (pythonise modO.id) = none
        ∧ pythonise modO.id
            ∈ (parse_pipe_def pdWireFixture "testpipe").modules.map Prod.fst
        ∧ ∀ l, topological_sort (parse_pipe_def pdWireFixture "testpipe").graph
              = Except.ok l → pythonise modO.id ∉ l) :=
  ⟨by decide, by decide, by decide,
    c8_orphan_pruned_but_looked_up pdWireFixture modO "testpipe"
      (by decide) (by decide) (by decide)⟩

theorem listCharLe_total : ∀ a b : List Char,
    listCharLe a b = true ∨ listCharLe b a = true := by
  intro a
  induction a with
  | nil => intro b; exact Or.inl rfl
  | cons x as ih =>
    intro b
    cases b with
    | nil => exact Or.inr rfl
    | cons y bs =>
      by_cases hxy : x = y
      · subst hxy
        rcases ih bs with h | h
        · exact Or.inl (by simp [listCharLe, h])
        · exact Or.inr (by simp [listCharLe, h])
      · rcases lt_or_gt_of_ne hxy with h | h
        · exact Or.inl (by simp [listCharLe, hxy, h])
        · exact Or.inr (by
            have hyx : ¬y = x := fun e => hxy e.symm
            simp [listCharLe, hyx, h])

theorem listCharLe_trans : ∀ a b c : List Char,
    listCharLe a b = true → listCharLe b c = true →
      listCharLe a c = true := by
  intro a
  induction a with
  | nil => intro b c _ _; rfl
  | cons x as ih =>
    intro b c hab hbc
    cases b with
    | nil => simp [listCharLe] at hab
    | cons y bs =>
      cases c with
      | nil => simp [listCharLe] at hbc
      | cons z cs =>
        by_cases hxy : x = y
        · subst hxy
          by_cases hyz : x = z
          · subst hyz
            simp only [listCharLe, if_pos rfl] at hab hbc ⊢
            exact ih bs cs hab hbc
          · simp only [listCharLe, if_pos rfl] at hab
            simp only [listCharLe, if_neg hyz] at hbc ⊢
            exact hbc
        · by_cases hyz : y = z
          · subst hyz
            simp only [listCharLe, if_neg hxy] at hab ⊢
            exact hab
          · simp only [listCharLe, if_neg hxy] at hab
            simp only [listCharLe, if_neg hyz] at hbc
            have hlt : x < z :=
              lt_trans (of_decide_eq_true hab) (of_decide_eq_true hbc)
            simp only [listCharLe, if_neg (ne_of_lt hlt)]
            exact decide_eq_true hlt

instance : IsTotal String fun a b => strLe a b = true :=
  ⟨fun a b => listCharLe_total a.data b.data⟩

instance : IsTrans String fun a b => strLe a b = true :=
  ⟨fun a b c => listCharLe_trans a.data b.data c.data⟩

/-- C9 (amended): with the describe-dependencies flag set and the
describe-input flag clear, `build_pipeline` returns the static dependency
list — the sorted, duplicate-free list of `pipe`-prefixed module type names,
including embedded module types — and no stage constructor is invoked. -/
theorem c9_describe_dependencies_short_circuit (ctx : Context) (pipe : Pipe)
    (pd : PipeDef) (ids : List String)
    (hdep : ctx.describe_dependencies = true)
    (hin : ctx.describe_input = false)
    (hsort : topological_sort pipe.graph = Except.ok ids) :
    build_pipeline ctx pipe pd
        = Except.ok (PipeOut.deps (extract_dependencies pd), [])
    ∧ List.Sorted (fun a b => strLe a b = true) (extract_dependencies pd)
    ∧ (extract_dependencies pd).Nodup
    ∧ ∀ s, s ∈ extract_dependencies pd ↔
        ∃ m ∈ pd.modules, s = "pipe" ++ m.mtype
          ∨ ∃ e, m.embed = some e ∧ s = "pipe" ++ e.etype := by
  refine ⟨?_, ?_, ?_, ?_⟩
  · unfold build_pipeline
    rw [hsort]
    simp [describeFlag, hdep, hin, invokedOf]
  · exact List.sorted_insertionSort _ _
  · have hperm := List.perm_insertionSort (fun a b => strLe a b = true)
      (gen_dependencies pd).dedup
    exact hperm.symm.nodup (List.nodup_dedup _)
  · intro s
    unfold extract_dependencies
    rw [List.mem_insertionSort, List.mem_dedup]
    unfold gen_dependencies
    rw [List.mem_flatMap]
    constructor
    · rintro ⟨m, hm, hs⟩
      refine ⟨m, hm, ?_⟩
      rcases List.mem_cons.mp hs with h | h
      · exact Or.inl h
      · cases he : m.embed with
        | none => rw [he] at h; cases h
        | some e =>
          rw [he] at h
          exact Or.inr ⟨e, rfl, by simpa using h⟩
    · rintro ⟨m, hm, h⟩
      refine ⟨m, hm, ?_⟩
      rcases h with h | ⟨e, he, hs⟩
      · rw [h]
        exact List.mem_cons_self _ _
      · rw [he, hs]
        exact List.mem_cons_of_mem _ (List.mem_cons_self _ _)

/-- Witness for C9's amended theorem at the split fixture. -/
theorem c9_describe_dependencies_short_circuit_witness :
    ctxDeps.describe_dependencies = true
      ∧ ctxDeps.describe_input = false
      ∧ topological_sort pipeSplitFixture.graph
          = Except.ok ["f", "s", "a", "b"]
      ∧ (build_pipeline ctxDeps pipeSplitFixture pdSplitFixture
            = Except.ok
                (PipeOut.deps (extract_dependencies pdSplitFixture), [])
        ∧ List.Sorted (fun a b => strLe a b = true)
            (extract_dependencies pdSplitFixture)
        ∧ (extract_dependencies pdSplitFixture).Nodup
        ∧ ∀ s, s ∈ extract_dependencies pdSplitFixture ↔
            ∃ m ∈ pdSplitFixture.modules, s = "pipe" ++ m.mtype
              ∨ ∃ e, m.embed = some e ∧ s = "pipe" ++ e.etype) :=
  ⟨rfl, rfl, by decide,
    c9_describe_dependencies_short_circuit ctxDeps pipeSplitFixture
      pdSplitFixture ["f", "s", "a", "b"] rfl rfl (by decide)⟩

/-- C9 counterexample: a context that sets the describe-dependencies flag
(together with the describe-input flag) makes `build_pipeline` return the
combined metadata record, which is not the dependency list the claim
promises; no constructor is invoked either way. -/
theorem c9_counterexample_both_flags :
    build_pipeline ctxBoth pipeSplitFixture pdSplitFixture
        = Except.ok
            (PipeOut.combined [] ["pipecount", "pipefetch", "pipesplit"], [])
      ∧ PipeOut.combined [] ["pipecount", "pipefetch", "pipesplit"]
          ≠ PipeOut.deps (extract_dependencies pdSplitFixture) := by
  decide
